import Mathlib

/-!
Verification development for the Grafting cross-chain modulus-switching
subsystem (CKKS).  The definitions below are a shallow embedding of the Go
sources:

* `ModulusSwitcher`, `NewModulusSwitcher`, `SwitchSecretKey`, `SwitchNew`
  are embedded from `src/unnamed/part_001` (package ckks).
* The out-sourced bootstrap pipeline is embedded from `main` in
  `src/unnamed/part_000` (lines 412-473).
* The repository is a fork of the Lattigo library; the library primitives
  used by the switcher (`ring.Ring.AtLevel`, `rlwe.NewCiphertext`,
  `ring.BasisExtender.ModUpQtoP/PtoQ`, NTT transforms) are repository code
  that is not under `src/`; where their behaviour decides a claim they are
  modelled from the spec, and those definitions say so in their doc
  comments.

Machine integers (Go `int` levels) are modelled as `ℤ`; residues as `ℕ`
with explicit `%`.
-/

namespace Grafting

/-- Embeds the `hefloat.Parameters` configuration data that the modulus
switcher observes: ring degree (`LogN`), the number of ciphertext primes
(`QCount`, so `RingQ().Level() = qCount - 1`), the auxiliary key-switching
prime bit sizes (`LogP`), the default scale (`LogDefaultScale`), and
whether the ciphertext ring is present (the `RingQ() != nil` test in
`NewModulusSwitcher`). -/
structure Parameters where
  logN : ℕ
  qCount : ℕ
  pBits : List ℕ
  logDefaultScale : ℕ
  hasRingQ : Bool
deriving DecidableEq

/-- `params.RingQ().Level()` / `params.MaxLevelQ()`: the top level of the
moduli chain, one less than the number of primes (a Go `int`). -/
def Parameters.maxLevelQ (p : Parameters) : ℤ :=
  (p.qCount : ℤ) - 1

/-- Identifies one of the four rings the switcher touches:
`params1.RingQ()`, `params2.RingQ()`, `params1.RingP()`, `params2.RingP()`. -/
inductive RingId
  | rq (first : Bool)
  | rp (first : Bool)
deriving DecidableEq

/-- Symbolic RNS polynomials: a leaf for an input polynomial, a leaf for a
freshly allocated (zero) polynomial, and one node per ring operation the
switcher applies.  Each node records the ring and level the Go code passes
to the corresponding Lattigo primitive. -/
inductive Poly
  | input (id : ℕ)
  | zeroPoly (p : Parameters) (level : ℤ)
  | inttLazy (r : RingId) (level : ℤ) (x : Poly)
  | ntt (r : RingId) (level : ℤ) (x : Poly)
  | nttLazy (r : RingId) (level : ℤ) (x : Poly)
  | modUpQtoP (l1 l2 : ℤ) (x : Poly)
  | modUpPtoQ (l1 l2 : ℤ) (x : Poly)
  | extendSmallNormCentered (src dst : RingId) (x : Poly)
deriving DecidableEq

/-- Embeds `rlwe.Ciphertext` as the switcher observes it: the parameter
set and level it was allocated with (`Level()` is the number of residue
arrays minus one), the value components, the scale (its log2), and the
domain/batching metadata.  `Degree()` is `value.length - 1`. -/
structure Ciphertext where
  allocParams : Parameters
  level : ℤ
  value : List Poly
  scale : ℕ
  isNTT : Bool
  isBatched : Bool
  logDimensions : ℤ × ℤ
deriving DecidableEq

/-- The failure modes of a switch call, both Go panics: `configuration`
for an invalid level/chain correspondence (the spec's ConfigurationError
taxonomy, §7) and `indexOutOfRange` for a Go slice/array index panic. -/
inductive SwitchError
  | configuration
  | indexOutOfRange
deriving DecidableEq

/-- Modelled from the spec: the external ciphertext constructor
`rlwe.NewCiphertext(params, degree, level)` ("constructors for a
destination-chain ciphertext at a given level", §6).  It allocates
`degree + 1` fresh polynomials with `level + 1` residue arrays each and
rejects a level outside `[0, MaxLevelQ]` (fatal, per the §7 taxonomy);
the metadata defaults are immediately overwritten by `SwitchNew`. -/
def NewCiphertext (p : Parameters) (degree : ℕ) (level : ℤ) :
    Except SwitchError Ciphertext :=
  if level < 0 ∨ p.maxLevelQ < level then .error .configuration
  else .ok
    { allocParams := p
      level := level
      value := List.replicate (degree + 1) (Poly.zeroPoly p level)
      scale := p.logDefaultScale
      isNTT := true
      isBatched := true
      logDimensions := (0, 0) }

/-- Modelled from the spec: `ring.Ring.AtLevel(level)` of the Lattigo
ring collaborator returns a ring handle operating at `level`; a level
outside the chain is a fatal configuration error (§7: "invalid
level/chain correspondence is fatal"). -/
def atLevel (p : Parameters) (level : ℤ) : Except SwitchError ℤ :=
  if level < 0 ∨ p.maxLevelQ < level then .error .configuration
  else .ok level

/-- The destination-level computation of `SwitchNew`
(`src/unnamed/part_001` lines 108 and 117):
`levelQ2 = levelQ1 - srcRingQ.Level() + dstRingQ.Level()`. -/
def destLevelP (p1 p2 : Parameters) (dir : Bool) (lvl : ℤ) : ℤ :=
  if dir then lvl - p1.maxLevelQ + p2.maxLevelQ
  else lvl - p2.maxLevelQ + p1.maxLevelQ

/-- Embeds `ModulusSwitcher` (`src/unnamed/part_001` lines 13-21):
the two parameter sets and whether the basis extender was constructed.
The scratch buffers `BuffQ1`/`BuffQ2` carry no data across calls in the
functional model; their aliasing discipline is modelled separately by the
heap embedding below. -/
structure Switcher where
  params1 : Parameters
  params2 : Parameters
  hasBasisExtender : Bool
deriving DecidableEq

/-- Embeds `NewModulusSwitcher` (`src/unnamed/part_001` lines 49-63).
The Go function performs no validation of the two parameter sets (the
in-code comment reads "Warning! omit checking RingP of srcparams and
dstparams are the same"); it only guards the creation of the basis
extender on both ciphertext rings being non-nil. -/
def NewModulusSwitcher (p1 p2 : Parameters) : Switcher :=
  { params1 := p1
    params2 := p2
    hasBasisExtender := p1.hasRingQ && p2.hasRingQ }

def Switcher.destLevel (rs : Switcher) (dir : Bool) (lvl : ℤ) : ℤ :=
  destLevelP rs.params1 rs.params2 dir lvl

/-- Embeds `rlwe.SecretKey` as the switcher observes it: the parameter
set it was created for, its Q-level (`LevelQ()`), and its Q and P
components (`Value.Q`, `Value.P`). -/
structure SecretKey where
  params : Parameters
  levelQ : ℤ
  q : Poly
  p : Poly
deriving DecidableEq

/-- Embeds `ModulusSwitcher.SwitchSecretKey` (`src/unnamed/part_001`
lines 64-93).  The `kgenIn`/`kgenOut` arguments of the Go function are
unused there and are omitted.  `rlwe.NewSecretKey(params_dst)` returns a
fresh key at the destination chain's maximum level, and
`rlwe.ExtendBasisSmallNormAndCenterNTTMontgomery(r1, r2, in, buff, out)`
is recorded as an `extendSmallNormCentered` node; in both branches the P
component is extended onto `rs.params1.RingP()` (line 91). -/
def SwitchSecretKey (rs : Switcher) (skIn : SecretKey) :
    Except SwitchError SecretKey :=
  if skIn.levelQ = rs.params1.maxLevelQ then
    .ok
      { params := rs.params2
        levelQ := rs.params2.maxLevelQ
        q := .extendSmallNormCentered (.rq true) (.rq false) skIn.q
        p := .extendSmallNormCentered (.rq true) (.rp true) skIn.q }
  else if skIn.levelQ = rs.params2.maxLevelQ then
    .ok
      { params := rs.params1
        levelQ := rs.params1.maxLevelQ
        q := .extendSmallNormCentered (.rq false) (.rq true) skIn.q
        p := .extendSmallNormCentered (.rq false) (.rp true) skIn.q }
  else .error .configuration

/-- One iteration of the per-component loop of `SwitchNew`
(`src/unnamed/part_001` lines 128-140).  The scratch buffers are
two-element arrays, so a component index `i ≥ 2` is a Go index panic
(`buffQ1[i]`).  The final forward transform writes `level2 + 1` residue
arrays into the output polynomial, which was allocated with
`allocLevel + 1` arrays: `level2 > allocLevel` is a Go index panic inside
the transform. -/
def switchComponent (dir : Bool) (l1 l2 allocLevel : ℤ) (i : ℕ) (x : Poly) :
    Except SwitchError Poly :=
  if 2 ≤ i then .error .indexOutOfRange
  else
    let a := Poly.inttLazy (.rq dir) l1 x
    let b := if dir then Poly.modUpQtoP l1 l2 a else Poly.modUpPtoQ l1 l2 a
    if allocLevel < l2 then .error .indexOutOfRange
    else .ok (if dir then Poly.ntt (.rq false) l2 b
              else Poly.nttLazy (.rq true) l2 b)

/-- The `for i := range ctIn.Value` loop of `SwitchNew`. -/
def switchLoop (dir : Bool) (l1 l2 allocLevel : ℤ) :
    ℕ → List Poly → Except SwitchError (List Poly)
  | _, [] => .ok []
  | i, x :: xs =>
    match switchComponent dir l1 l2 allocLevel i x with
    | .error e => .error e
    | .ok y =>
      match switchLoop dir l1 l2 allocLevel (i + 1) xs with
      | .error e => .error e
      | .ok ys => .ok (y :: ys)

/-- Embeds `ModulusSwitcher.SwitchNew` (`src/unnamed/part_001` lines
95-142).  For `dir = true` (chain1 → chain2) the Go code allocates the
output with `rlwe.NewCiphertext(rs.params1, ctIn.Degree(), levelQ1)` —
the first parameter set at the *source* level — and then sets
`ctOut.Scale = rs.params2.DefaultScale()`; for `dir = false` it allocates
with `rlwe.NewCiphertext(rs.params1, ctIn.Degree(), levelQ2)` and sets
`ctOut.Scale = rs.params1.DefaultScale()`.  Both directions copy the
domain/batching metadata from the input and then run the per-component
loop. -/
def SwitchNew (rs : Switcher) (ctIn : Ciphertext) (dir : Bool) :
    Except SwitchError Ciphertext :=
  let levelQ1 := ctIn.level
  let levelQ2 := rs.destLevel dir levelQ1
  if dir then
    match NewCiphertext rs.params1 (ctIn.value.length - 1) levelQ1 with
    | .error e => .error e
    | .ok ctOut =>
      match atLevel rs.params1 levelQ1 with
      | .error e => .error e
      | .ok _ =>
        match atLevel rs.params2 levelQ2 with
        | .error e => .error e
        | .ok _ =>
          match switchLoop true levelQ1 levelQ2 ctOut.level 0 ctIn.value with
          | .error e => .error e
          | .ok vals =>
            .ok { ctOut with
                  scale := rs.params2.logDefaultScale
                  isNTT := ctIn.isNTT
                  isBatched := ctIn.isBatched
                  logDimensions := ctIn.logDimensions
                  value := vals }
  else
    match NewCiphertext rs.params1 (ctIn.value.length - 1) levelQ2 with
    | .error e => .error e
    | .ok ctOut =>
      match atLevel rs.params2 levelQ1 with
      | .error e => .error e
      | .ok _ =>
        match atLevel rs.params1 levelQ2 with
        | .error e => .error e
        | .ok _ =>
          match switchLoop false levelQ1 levelQ2 ctOut.level 0 ctIn.value with
          | .error e => .error e
          | .ok vals =>
            .ok { ctOut with
                  scale := rs.params1.logDefaultScale
                  isNTT := ctIn.isNTT
                  isBatched := ctIn.isBatched
                  logDimensions := ctIn.logDimensions
                  value := vals }

/-!
Heap-level embedding of `SwitchNew`.  The Go code works on pointer-backed
polynomials: the input ciphertext and the switcher's scratch buffers
`BuffQ1`/`BuffQ2` are heap objects, and `rlwe.NewCiphertext` allocates
fresh storage for the output.  To settle the frame claim the same
function is embedded once more over an explicit heap of polynomial
locations.
-/

/-- A heap of polynomial storage: an allocation bound (every allocated
location is `< nextFree`) and the contents. -/
structure Heap where
  nextFree : ℕ
  mem : ℕ → Poly

/-- Overwrite one location. -/
def Heap.write (h : Heap) (l : ℕ) (x : Poly) : Heap :=
  { h with mem := fun l2 => if l2 = l then x else h.mem l2 }

/-- Allocate `n` fresh locations, all initialised to `x`. -/
def Heap.allocN (h : Heap) (n : ℕ) (x : Poly) : List ℕ × Heap :=
  ((List.range n).map (· + h.nextFree),
   { nextFree := h.nextFree + n
     mem := fun l => if h.nextFree ≤ l ∧ l < h.nextFree + n then x
                     else h.mem l })

/-- A ciphertext whose value components are heap locations. -/
structure HCiphertext where
  level : ℤ
  value : List ℕ
deriving DecidableEq

/-- The switcher with its direction-tagged scratch-buffer locations
(`BuffQ1`, `BuffQ2`: two polynomials each, `src/unnamed/part_001` lines
28-31 and 40-47). -/
structure HSwitcher where
  params1 : Parameters
  params2 : Parameters
  buffQ1 : ℕ × ℕ
  buffQ2 : ℕ × ℕ
deriving DecidableEq

/-- The four scratch-buffer locations owned by the switcher. -/
def HSwitcher.bufferLocs (sw : HSwitcher) : List ℕ :=
  [sw.buffQ1.1, sw.buffQ1.2, sw.buffQ2.1, sw.buffQ2.2]

/-- One iteration of the `SwitchNew` loop on the heap: read the source
component, write the first scratch buffer (`INTTLazy`), write the second
scratch buffer (`ModUp`), then write the output component (`NTT`),
mirroring `src/unnamed/part_001` lines 128-140.  `bA`/`bB` are the
buffer pairs selected for this direction. -/
def heapSwitchComponent (dir : Bool) (bA bB : ℕ × ℕ) (l1 l2 allocLevel : ℤ)
    (i : ℕ) (src dst : ℕ) (h : Heap) : Except SwitchError Heap :=
  if 2 ≤ i then .error .indexOutOfRange
  else
    let la := if i = 0 then bA.1 else bA.2
    let lb := if i = 0 then bB.1 else bB.2
    let h1 := h.write la (Poly.inttLazy (.rq dir) l1 (h.mem src))
    let h2 := h1.write lb
      (if dir then Poly.modUpQtoP l1 l2 (h1.mem la)
       else Poly.modUpPtoQ l1 l2 (h1.mem la))
    if allocLevel < l2 then .error .indexOutOfRange
    else .ok (h2.write dst
      (if dir then Poly.ntt (.rq false) l2 (h2.mem lb)
       else Poly.nttLazy (.rq true) l2 (h2.mem lb)))

/-- The per-component loop on the heap. -/
def heapSwitchLoop (dir : Bool) (bA bB : ℕ × ℕ) (l1 l2 allocLevel : ℤ) :
    ℕ → List ℕ → List ℕ → Heap → Except SwitchError Heap
  | _, [], _, h => .ok h
  | i, src :: srcs, dst :: dsts, h =>
    match heapSwitchComponent dir bA bB l1 l2 allocLevel i src dst h with
    | .error e => .error e
    | .ok h1 => heapSwitchLoop dir bA bB l1 l2 allocLevel (i + 1) srcs dsts h1
  | _, _ :: _, [], _ => .error .indexOutOfRange

/-- Heap-level `SwitchNew`: the same level computations and guards as the
functional embedding, with `rlwe.NewCiphertext` modelled as allocation of
fresh locations and the loop threading the heap. -/
def HSwitchNew (sw : HSwitcher) (h : Heap) (ctIn : HCiphertext) (dir : Bool) :
    Except SwitchError (HCiphertext × Heap) :=
  let l1 := ctIn.level
  let l2 := destLevelP sw.params1 sw.params2 dir l1
  let allocLevel := if dir then l1 else l2
  if allocLevel < 0 ∨ sw.params1.maxLevelQ < allocLevel then
    .error .configuration
  else if l1 < 0 ∨ (if dir then sw.params1 else sw.params2).maxLevelQ < l1 then
    .error .configuration
  else if l2 < 0 ∨ (if dir then sw.params2 else sw.params1).maxLevelQ < l2 then
    .error .configuration
  else
    let bA := if dir then sw.buffQ1 else sw.buffQ2
    let bB := if dir then sw.buffQ2 else sw.buffQ1
    let alloc := h.allocN ctIn.value.length (Poly.zeroPoly sw.params1 allocLevel)
    match heapSwitchLoop dir bA bB l1 l2 allocLevel 0 ctIn.value alloc.1 alloc.2 with
    | .error e => .error e
    | .ok h2 => .ok ({ level := allocLevel, value := alloc.1 }, h2)

/-- Heap of a successful switch result (the input heap on failure). -/
def okHeapD (r : Except SwitchError (HCiphertext × Heap)) (d : Heap) : Heap :=
  match r with
  | .ok x => x.2
  | .error _ => d

/-- Ciphertext of a successful switch result (the default on failure). -/
def okCtD (r : Except SwitchError (HCiphertext × Heap)) (d : HCiphertext) :
    HCiphertext :=
  match r with
  | .ok x => x.1
  | .error _ => d

/-!
Embedding of the out-sourced bootstrap pipeline of `main`
(`src/unnamed/part_000` lines 412-473).  The external collaborator stages
(`eval.SlotsToCoeffs`, `eval2.ScaleDown`, `eval2.ModUp`,
`eval2.CoeffsToSlots`, `eval2.EvalMod`, `eval2.Evaluator.Mul`,
`eval2.Evaluator.Add`) are abstracted as an oracle; the two chain-boundary
calls are the embedded `SwitchNew` itself.  Every stage result is checked
and a failure aborts the pipeline (the `if err != nil { panic(err) }`
pattern of the source); the executed stages are recorded in a trace.
-/

/-- The observable stages of the out-sourced pipeline, each tagged with
the evaluator that runs it (`chain1 = true` for `eval`, `false` for
`eval2`). -/
inductive Stage
  | slotsToCoeffs (chain1 : Bool)
  | switchCt (dir : Bool)
  | scaleDown (chain1 : Bool)
  | modUpStage (chain1 : Bool)
  | coeffsToSlots (chain1 : Bool)
  | evalMod (chain1 : Bool)
  | mulByI (chain1 : Bool)
  | addParts (chain1 : Bool)
deriving DecidableEq

/-- Which evaluator a stage runs under (`true` = chain1's `eval`). -/
def Stage.chain1Of : Stage → Bool
  | .slotsToCoeffs b => b
  | .switchCt _ => true
  | .scaleDown b => b
  | .modUpStage b => b
  | .coeffsToSlots b => b
  | .evalMod b => b
  | .mulByI b => b
  | .addParts b => b

/-- The external bootstrapping-circuit stages consumed by `main`
(spec §6: homomorphic evaluator operations, invoked but not
reimplemented). -/
structure BootstrapStages where
  slotsToCoeffs1 : Ciphertext → Except SwitchError Ciphertext
  scaleDown2 : Ciphertext → Except SwitchError Ciphertext
  modUp2 : Ciphertext → Except SwitchError Ciphertext
  coeffsToSlots2 : Ciphertext → Except SwitchError (Ciphertext × Ciphertext)
  evalMod2 : Ciphertext → Except SwitchError Ciphertext
  mulByI2 : Ciphertext → Except SwitchError Ciphertext
  add2 : Ciphertext → Ciphertext → Except SwitchError Ciphertext

/-- The stage sequence of the out-sourced bootstrap
(`src/unnamed/part_000` lines 412-473): homomorphic decode under chain1,
switch to chain2, scale-down / basis-raise / homomorphic encode / two
modular reductions / recombination under chain2, switch back to chain1. -/
def bootstrapStageOrder : List Stage :=
  [.slotsToCoeffs true, .switchCt true, .scaleDown false, .modUpStage false,
   .coeffsToSlots false, .evalMod false, .evalMod false, .mulByI false,
   .addParts false, .switchCt false]

/-- Embeds the out-sourced bootstrap of `main` (`src/unnamed/part_000`
lines 412-473), returning the result and the trace of invoked stages. -/
def outsourcedBootstrap (ms : Switcher) (ex : BootstrapStages)
    (ct : Ciphertext) : Except SwitchError Ciphertext × List Stage :=
  match ex.slotsToCoeffs1 ct with
  | .error e => (.error e, [.slotsToCoeffs true])
  | .ok c1 =>
    match SwitchNew ms c1 true with
    | .error e => (.error e, [.slotsToCoeffs true, .switchCt true])
    | .ok c2 =>
      match ex.scaleDown2 c2 with
      | .error e =>
        (.error e, [.slotsToCoeffs true, .switchCt true, .scaleDown false])
      | .ok c3 =>
        match ex.modUp2 c3 with
        | .error e =>
          (.error e, [.slotsToCoeffs true, .switchCt true, .scaleDown false,
                      .modUpStage false])
        | .ok c4 =>
          match ex.coeffsToSlots2 c4 with
          | .error e =>
            (.error e, [.slotsToCoeffs true, .switchCt true, .scaleDown false,
                        .modUpStage false, .coeffsToSlots false])
          | .ok (realct, imagct) =>
            match ex.evalMod2 realct with
            | .error e =>
              (.error e, [.slotsToCoeffs true, .switchCt true,
                          .scaleDown false, .modUpStage false,
                          .coeffsToSlots false, .evalMod false])
            | .ok realct2 =>
              match ex.evalMod2 imagct with
              | .error e =>
                (.error e, [.slotsToCoeffs true, .switchCt true,
                            .scaleDown false, .modUpStage false,
                            .coeffsToSlots false, .evalMod false,
                            .evalMod false])
              | .ok imagct2 =>
                match ex.mulByI2 imagct2 with
                | .error e =>
                  (.error e, [.slotsToCoeffs true, .switchCt true,
                              .scaleDown false, .modUpStage false,
                              .coeffsToSlots false, .evalMod false,
                              .evalMod false, .mulByI false])
                | .ok imagct3 =>
                  match ex.add2 realct2 imagct3 with
                  | .error e =>
                    (.error e, [.slotsToCoeffs true, .switchCt true,
                                .scaleDown false, .modUpStage false,
                                .coeffsToSlots false, .evalMod false,
                                .evalMod false, .mulByI false,
                                .addParts false])
                  | .ok c5 =>
                    match SwitchNew ms c5 false with
                    | .error e => (.error e, bootstrapStageOrder)
                    | .ok c6 => (.ok c6, bootstrapStageOrder)

/-!
Residue-level model of the Basis Extender.  The extender
(`ring.BasisExtender.ModUpQtoP` / `ModUpPtoQ`) is repository code that is
not under `src/`; it is modelled from the spec (§4.1): each target
residue is a CRT-style weighted sum of the source residues, the weights
being the modular inverses of each source prime's cofactor, using only
modular arithmetic, with reconstruction error "bounded by a small
constant number of source-modulus units".
-/

/-- The residues of a value under a prime chain. -/
def residuesOf (v : ℕ) (qs : List ℕ) : List ℕ :=
  qs.map (fun q => v % q)

/-- Modelled from the spec (§4.1): the uncorrected CRT-style weighted
sum `Σ_i ([x_i · (Q/q_i)⁻¹] mod q_i) · (Q/q_i)` computed by the Basis
Extender — `as` is the precomputed table of modular inverses of the
cofactors.  It represents the source value plus a systematic `u·Q`
overshoot (`u` below the number of source primes), which the
centering/rounding correction `crtRound` removes. -/
def crtLift : List ℕ → List ℕ → List ℕ → ℕ
  | q :: qs, x :: xs, a :: as => x * a % q * qs.prod + q * crtLift qs xs as
  | _, _, _ => 0

/-- Modelled from the spec (§4.1): the centering/rounding correction
term — the nearest integer to `Σ_i ([x_i·(Q/q_i)⁻¹] mod q_i) / q_i`
(equivalently to `crtLift / Q`), computed here with exact rounding:
`⌊(2·crtLift + Q) / (2·Q)⌋`.  Subtracting `crtRound · Q` removes the
systematic overshoot of the uncorrected weighted sum. -/
def crtRound (qs xs as : List ℕ) : ℕ :=
  (2 * crtLift qs xs as + qs.prod) / (2 * qs.prod)

/-- Modelled from the spec (§4.1): basis extension from source primes
`qs` (with residues `xs` and inverse table `as`) onto the target primes
`ps` — the corrected weighted sum (`crtLift` minus the centering
correction times the source modulus) reduced modulo each target prime,
never materialising the full integer beyond word-sized residues. -/
def modUpResidues (qs xs as ps : List ℕ) : List ℕ :=
  residuesOf (crtLift qs xs as - crtRound qs xs as * qs.prod) ps

/-- Per-prime view of the weighted sum: modulo the `j`-th source prime,
every term but the `j`-th vanishes. -/
lemma crtLift_modEq_term :
    ∀ (qs xs as : List ℕ) (j : ℕ), (∀ q ∈ qs, 0 < q) →
      xs.length = qs.length → as.length = qs.length → j < qs.length →
      crtLift qs xs as ≡
        xs.getD j 0 * as.getD j 0 % qs.getD j 1 * (qs.prod / qs.getD j 1)
          [MOD qs.getD j 1] := by
  intro qs
  induction qs with
  | nil => intro xs as j _ _ _ hj; exact absurd hj (by simp)
  | cons q qs ih =>
    intro xs as j hpos hx ha hj
    cases xs with
    | nil => exact absurd hx (by simp)
    | cons x xs =>
      cases as with
      | nil => exact absurd ha (by simp)
      | cons a as =>
        have hq : 0 < q := hpos q (List.mem_cons_self q qs)
        cases j with
        | zero =>
          simp only [List.getD_cons_zero, List.prod_cons,
            Nat.mul_div_cancel_left _ hq]
          show (x * a % q * qs.prod + q * crtLift qs xs as) % q
              = x * a % q * qs.prod % q
          rw [Nat.mul_comm q (crtLift qs xs as), Nat.add_mul_mod_self_right]
        | succ j =>
          have hj' : j < qs.length := by simpa using hj
          have hpos' : ∀ p ∈ qs, 0 < p :=
            fun p hp => hpos p (List.mem_cons_of_mem q hp)
          have hx' : xs.length = qs.length := by simpa using hx
          have ha' : as.length = qs.length := by simpa using ha
          have hmem : qs.getD j 1 ∈ qs := by
            rw [List.getD_eq_getElem qs 1 hj']
            exact List.getElem_mem hj'
          have hdvd : qs.getD j 1 ∣ qs.prod := List.dvd_prod hmem
          have h0 : x * a % q * qs.prod ≡ 0 [MOD qs.getD j 1] := by
            exact Nat.modEq_zero_iff_dvd.mpr (Dvd.dvd.mul_left hdvd _)
          have h1 : q * crtLift qs xs as ≡
              q * (xs.getD j 0 * as.getD j 0 % qs.getD j 1 *
                (qs.prod / qs.getD j 1)) [MOD qs.getD j 1] :=
            (ih xs as j hpos' hx' ha' hj').mul_left q
          have heq : q * (xs.getD j 0 * as.getD j 0 % qs.getD j 1 *
              (qs.prod / qs.getD j 1)) =
              xs.getD j 0 * as.getD j 0 % qs.getD j 1 *
                ((q :: qs).prod / qs.getD j 1) := by
            rw [List.prod_cons, Nat.mul_div_assoc q hdvd]; ring
          have := (h0.add h1)
          rw [Nat.zero_add, heq] at this
          simpa [List.getD_cons_succ, crtLift] using this

/-- The residues of `v` at index `j` are `v % qs[j]`. -/
lemma residuesOf_getD (v : ℕ) (qs : List ℕ) (j : ℕ) (hj : j < qs.length) :
    (residuesOf v qs).getD j 0 = v % qs.getD j 1 := by
  have hj2 : j < (residuesOf v qs).length := by simpa [residuesOf] using hj
  rw [List.getD_eq_getElem (residuesOf v qs) 0 hj2, List.getD_eq_getElem qs 1 hj]
  simp [residuesOf]

/-- With a valid inverse table the weighted sum is congruent to the
represented value modulo every source prime. -/
lemma crtLift_modEq_value (qs as : List ℕ) (v : ℕ)
    (hlen : as.length = qs.length) (hpos : ∀ q ∈ qs, 0 < q)
    (hinv : ∀ j, j < qs.length →
      as.getD j 0 * (qs.prod / qs.getD j 1) ≡ 1 [MOD qs.getD j 1]) :
    ∀ j, j < qs.length →
      crtLift qs (residuesOf v qs) as ≡ v [MOD qs.getD j 1] := by
  intro j hj
  have hxlen : (residuesOf v qs).length = qs.length := by simp [residuesOf]
  have h1 := crtLift_modEq_term qs (residuesOf v qs) as j hpos hxlen hlen hj
  rw [residuesOf_getD v qs j hj] at h1
  set q := qs.getD j 1 with hqdef
  set a := as.getD j 0 with hadef
  have h2 : v % q * a % q * (qs.prod / q) ≡ v % q * a * (qs.prod / q) [MOD q] :=
    (Nat.mod_modEq (v % q * a) q).mul_right _
  have h4 : v % q * a * (qs.prod / q) ≡ v % q [MOD q] := by
    calc v % q * a * (qs.prod / q) = v % q * (a * (qs.prod / q)) := by ring
      _ ≡ v % q * 1 [MOD q] := (hinv j hj).mul_left (v % q)
      _ = v % q := by ring
  have h6 : v % q ≡ v [MOD q] := Nat.mod_modEq v q
  exact h1.trans (h2.trans (h4.trans h6))

/-- Congruence modulo each member of a pairwise-coprime chain combines
into congruence modulo the chain product. -/
lemma modEq_prod_of_forall_mem (qs : List ℕ) (a b : ℕ)
    (hcp : qs.Pairwise Nat.Coprime) (h : ∀ q ∈ qs, a ≡ b [MOD q]) :
    a ≡ b [MOD qs.prod] := by
  induction qs with
  | nil => simpa using Nat.modEq_one
  | cons q qs ih =>
    rw [List.pairwise_cons] at hcp
    have hco : Nat.Coprime q qs.prod :=
      Nat.coprime_list_prod_right_iff.mpr hcp.1
    rw [List.prod_cons]
    exact (Nat.modEq_and_modEq_iff_modEq_mul hco).mp
      ⟨h q (List.mem_cons_self q qs),
       ih hcp.2 (fun p hp => h p (List.mem_cons_of_mem q hp))⟩

lemma crtLift_modEq_prod (qs as : List ℕ) (v : ℕ)
    (hlen : as.length = qs.length) (hpos : ∀ q ∈ qs, 0 < q)
    (hcp : qs.Pairwise Nat.Coprime)
    (hinv : ∀ j, j < qs.length →
      as.getD j 0 * (qs.prod / qs.getD j 1) ≡ 1 [MOD qs.getD j 1]) :
    crtLift qs (residuesOf v qs) as ≡ v [MOD qs.prod] := by
  apply modEq_prod_of_forall_mem qs _ _ hcp
  intro q hq
  obtain ⟨j, hj, hjq⟩ := List.mem_iff_getElem.mp hq
  have h := crtLift_modEq_value qs as v hlen hpos hinv j hj
  rwa [List.getD_eq_getElem qs 1 hj, hjq] at h

/-- The corrected basis extension is exact on the residues of a centered
value: for `2v < Q` the uncorrected sum is `v + u·Q`, the rounding term
recovers exactly `u`, and the extension emits the residues of `v` under
the target primes. -/
lemma modUpResidues_exact (qs as ps : List ℕ) (v : ℕ)
    (hlen : as.length = qs.length) (hpos : ∀ q ∈ qs, 0 < q)
    (hcp : qs.Pairwise Nat.Coprime)
    (hinv : ∀ j, j < qs.length →
      as.getD j 0 * (qs.prod / qs.getD j 1) ≡ 1 [MOD qs.getD j 1])
    (h2v : 2 * v < qs.prod) :
    modUpResidues qs (residuesOf v qs) as ps = residuesOf v ps := by
  have hQ : 0 < qs.prod := List.prod_pos hpos
  have hv : v < qs.prod := by omega
  set L := crtLift qs (residuesOf v qs) as with hLdef
  have hmod : L ≡ v [MOD qs.prod] :=
    crtLift_modEq_prod qs as v hlen hpos hcp hinv
  have hLmod : L % qs.prod = v := by
    have h3 := hmod
    unfold Nat.ModEq at h3
    rw [h3, Nat.mod_eq_of_lt hv]
  have hdecomp : L = qs.prod * (L / qs.prod) + v := by
    have h4 := Nat.div_add_mod L qs.prod
    omega
  have hround : crtRound qs (residuesOf v qs) as = L / qs.prod := by
    show (2 * L + qs.prod) / (2 * qs.prod) = L / qs.prod
    have h5 : 2 * L + qs.prod
        = (2 * v + qs.prod) + L / qs.prod * (2 * qs.prod) := by
      calc 2 * L + qs.prod
          = 2 * (qs.prod * (L / qs.prod) + v) + qs.prod := by rw [← hdecomp]
        _ = (2 * v + qs.prod) + L / qs.prod * (2 * qs.prod) := by ring
    rw [h5, Nat.add_mul_div_right _ _ (by omega : 0 < 2 * qs.prod),
      Nat.div_eq_of_lt (by omega), Nat.zero_add]
  have hsub : L - crtRound qs (residuesOf v qs) as * qs.prod = v := by
    rw [hround]
    calc L - L / qs.prod * qs.prod
        = qs.prod * (L / qs.prod) + v - L / qs.prod * qs.prod := by
          rw [← hdecomp]
      _ = L / qs.prod * qs.prod + v - L / qs.prod * qs.prod := by
          rw [Nat.mul_comm qs.prod (L / qs.prod)]
      _ = v := by omega
  show residuesOf (L - crtRound qs (residuesOf v qs) as * qs.prod) ps
      = residuesOf v ps
  rw [hsub]

/-- C2: switching the residues of a centered value (`2v` below both
chain moduli, in particular any value within the smaller chain's
modulus) from chain1 to chain2 with the spec-modelled corrected Basis
Extender and back again reproduces the original residues exactly —
within the documented bounded error, and in particular for the zero
polynomial. -/
theorem modUp_roundTrip_exact
    (qs1 as1 qs2 as2 : List ℕ) (v : ℕ)
    (hlen1 : as1.length = qs1.length) (hlen2 : as2.length = qs2.length)
    (hpos1 : ∀ q ∈ qs1, 0 < q) (hpos2 : ∀ q ∈ qs2, 0 < q)
    (hcp1 : qs1.Pairwise Nat.Coprime) (hcp2 : qs2.Pairwise Nat.Coprime)
    (hinv1 : ∀ j, j < qs1.length →
      as1.getD j 0 * (qs1.prod / qs1.getD j 1) ≡ 1 [MOD qs1.getD j 1])
    (hinv2 : ∀ j, j < qs2.length →
      as2.getD j 0 * (qs2.prod / qs2.getD j 1) ≡ 1 [MOD qs2.getD j 1])
    (h2v1 : 2 * v < qs1.prod) (h2v2 : 2 * v < qs2.prod) :
    modUpResidues qs2 (modUpResidues qs1 (residuesOf v qs1) as1 qs2) as2 qs1
      = residuesOf v qs1 := by
  rw [modUpResidues_exact qs1 as1 qs2 v hlen1 hpos1 hcp1 hinv1 h2v1,
    modUpResidues_exact qs2 as2 qs1 v hlen2 hpos2 hcp2 hinv2 h2v2]

/-- Witness for `modUp_roundTrip_exact`: chain1 = [5, 7] with inverse
table [3, 3], chain2 = [11, 13] with inverse table [6, 6], value 3
(`2·3 < 35` and `2·3 < 143`): the round trip returns the original
residues `[3, 3]`. -/
theorem modUp_roundTrip_exact_witness :
    modUpResidues [11, 13]
        (modUpResidues [5, 7] (residuesOf 3 [5, 7]) [3, 3] [11, 13])
        [6, 6] [5, 7]
      = residuesOf 3 [5, 7] :=
  modUp_roundTrip_exact [5, 7] [3, 3] [11, 13] [6, 6] 3
    (by decide) (by decide) (by decide) (by decide) (by decide) (by decide)
    (by decide) (by decide) (by decide) (by decide)

instance {ε α : Type} [DecidableEq ε] [DecidableEq α] :
    DecidableEq (Except ε α) := fun a b =>
  match a, b with
  | .error e1, .error e2 =>
    if h : e1 = e2 then .isTrue (by rw [h])
    else .isFalse (by intro hc; cases hc; exact h rfl)
  | .ok x, .ok y =>
    if h : x = y then .isTrue (by rw [h])
    else .isFalse (by intro hc; cases hc; exact h rfl)
  | .error _, .ok _ => .isFalse (by intro hc; cases hc)
  | .ok _, .error _ => .isFalse (by intro hc; cases hc)

/-!
Characterisation of a successful `SwitchNew` call, shared by the
structural claims below.
-/

/-- The three-step composition applied to one value component for a given
direction, with all four Lattigo calls and their ring/level arguments. -/
def componentPipeline (dir : Bool) (l1 l2 : ℤ) (x : Poly) : Poly :=
  if dir then
    Poly.ntt (.rq false) l2 (Poly.modUpQtoP l1 l2 (Poly.inttLazy (.rq true) l1 x))
  else
    Poly.nttLazy (.rq true) l2 (Poly.modUpPtoQ l1 l2 (Poly.inttLazy (.rq false) l1 x))

lemma switchComponent_ok (dir : Bool) (l1 l2 alloc : ℤ) (i : ℕ) (x y : Poly)
    (h : switchComponent dir l1 l2 alloc i x = .ok y) :
    y = componentPipeline dir l1 l2 x := by
  by_cases h2 : 2 ≤ i
  · simp [switchComponent, h2] at h
  · by_cases h3 : alloc < l2
    · simp [switchComponent, h2, h3] at h
    · simp only [switchComponent, if_neg h2, if_neg h3] at h
      cases h
      cases dir <;> simp [componentPipeline]

lemma switchLoop_ok_map (dir : Bool) (l1 l2 alloc : ℤ) :
    ∀ (xs : List Poly) (i : ℕ) (ys : List Poly),
      switchLoop dir l1 l2 alloc i xs = .ok ys →
      ys = xs.map (componentPipeline dir l1 l2) := by
  intro xs
  induction xs with
  | nil =>
    intro i ys h
    simp only [switchLoop] at h
    cases h
    rfl
  | cons x xs ih =>
    intro i ys h
    unfold switchLoop at h
    cases hc : switchComponent dir l1 l2 alloc i x with
    | error e => rw [hc] at h; exact absurd h (by simp)
    | ok y =>
      rw [hc] at h
      cases hr : switchLoop dir l1 l2 alloc (i + 1) xs with
      | error e => rw [hr] at h; exact absurd h (by simp)
      | ok ys2 =>
        rw [hr] at h
        cases h
        rw [List.map_cons, switchComponent_ok dir l1 l2 alloc i x y hc,
          ih (i + 1) ys2 hr]

lemma newCiphertext_ok (p : Parameters) (deg : ℕ) (lvl : ℤ) (ct : Ciphertext)
    (h : NewCiphertext p deg lvl = .ok ct) :
    ct.allocParams = p ∧ ct.level = lvl ∧
      ct.value = List.replicate (deg + 1) (Poly.zeroPoly p lvl) ∧
      ¬(lvl < 0 ∨ p.maxLevelQ < lvl) := by
  unfold NewCiphertext at h
  by_cases hc : lvl < 0 ∨ p.maxLevelQ < lvl
  · simp [hc] at h
  · simp only [if_neg hc] at h
    cases h
    exact ⟨rfl, rfl, rfl, hc⟩

/-- Everything a successful `SwitchNew` call determines about its output:
the allocation parameters and level actually used by the Go code, the
scale, the copied metadata, and the per-component pipeline. -/
lemma switchNew_ok_spec (rs : Switcher) (ct : Ciphertext) (dir : Bool)
    (out : Ciphertext) (h : SwitchNew rs ct dir = .ok out) :
    out.allocParams = rs.params1 ∧
    out.level = (if dir then ct.level else rs.destLevel false ct.level) ∧
    out.scale = (if dir then rs.params2.logDefaultScale
                 else rs.params1.logDefaultScale) ∧
    out.isNTT = ct.isNTT ∧ out.isBatched = ct.isBatched ∧
    out.logDimensions = ct.logDimensions ∧
    out.value = ct.value.map
      (componentPipeline dir ct.level (rs.destLevel dir ct.level)) := by
  cases dir
  · simp only [SwitchNew, Bool.false_eq_true, if_false] at h
    split at h
    · exact absurd h (by simp)
    rename_i ctOut hn
    split at h
    · exact absurd h (by simp)
    split at h
    · exact absurd h (by simp)
    split at h
    · exact absurd h (by simp)
    rename_i vals h3
    cases h
    obtain ⟨ha, hl, _, _⟩ := newCiphertext_ok _ _ _ _ hn
    refine ⟨ha, by simp [hl], by simp, by simp, by simp, by simp, ?_⟩
    show vals = _
    exact switchLoop_ok_map false ct.level (rs.destLevel false ct.level)
      ctOut.level ct.value 0 vals h3
  · simp only [SwitchNew, if_pos] at h
    split at h
    · exact absurd h (by simp)
    rename_i ctOut hn
    split at h
    · exact absurd h (by simp)
    split at h
    · exact absurd h (by simp)
    split at h
    · exact absurd h (by simp)
    rename_i vals h3
    cases h
    obtain ⟨ha, hl, _, _⟩ := newCiphertext_ok _ _ _ _ hn
    refine ⟨ha, by simp [hl], by simp, by simp, by simp, by simp, ?_⟩
    show vals = _
    exact switchLoop_ok_map true ct.level (rs.destLevel true ct.level)
      ctOut.level ct.value 0 vals h3

lemma switchLoop_overflow (dir : Bool) (l1 l2 alloc : ℤ) :
    ∀ (xs : List Poly) (i : ℕ), 3 ≤ i + xs.length → i ≤ 2 →
      switchLoop dir l1 l2 alloc i xs = .error .indexOutOfRange := by
  intro xs
  induction xs with
  | nil => intro i h3 h2; simp at h3; omega
  | cons x xs ih =>
    intro i h3 h2
    by_cases hi : 2 ≤ i
    · have : i = 2 := by omega
      subst this
      simp [switchLoop, switchComponent]
    · by_cases ha : alloc < l2
      · simp [switchLoop, switchComponent, hi, ha]
      · have hrec := ih (i + 1) (by simp at h3 ⊢; omega) (by omega)
        simp [switchLoop, switchComponent, hi, ha, hrec]

/-- C1: at `dir = true` the output ciphertext is allocated from the
*first* (source) chain's parameters at the *source* level, not from the
destination chain at the destination level — contradicting the claim and
the spec, whose intent is visible in the same branch
(`ctOut.Scale = rs.params2.DefaultScale()` and the forward transform at
`levelQ2` over `params2`).  First conjunct: with chain sizes (2, 3) and
source level 1, the destination-level forward transform overruns the
source-level allocation and the call dies with an index panic instead of
returning a chain2 ciphertext at level 2.  Second conjunct: with chain
sizes (3, 2) and source level 2 the call returns a ciphertext that
carries chain1's parameters at level 2, even though the destination
level is 1 and the content written into it is chain2 content at level 1
with chain2's default scale. -/
theorem switchNew_dir_true_allocation_bug :
    (SwitchNew
        (NewModulusSwitcher ⟨16, 2, [61], 40, true⟩ ⟨16, 3, [61], 45, true⟩)
        ⟨⟨16, 2, [61], 40, true⟩, 1, [.input 0], 40, true, true, (1, 14)⟩ true
      = .error .indexOutOfRange) ∧
    (SwitchNew
        (NewModulusSwitcher ⟨16, 3, [61], 45, true⟩ ⟨16, 2, [61], 40, true⟩)
        ⟨⟨16, 3, [61], 45, true⟩, 2, [.input 0], 45, true, true, (1, 14)⟩ true
      = .ok ⟨⟨16, 3, [61], 45, true⟩, 2,
          [.ntt (.rq false) 1 (.modUpQtoP 2 1 (.inttLazy (.rq true) 2 (.input 0)))],
          40, true, true, (1, 14)⟩) := by
  constructor
  · decide
  · decide

/-- C3: for every input level and direction the destination level
computed by `SwitchNew` equals
`sourceLevel - sourceChainSize + destChainSize` (the `- 1`s of the two
`RingQ().Level()` calls cancel), and whenever that destination level is
negative the call fails with the configuration panic raised by the level
guard of the ring collaborator instead of proceeding. -/
theorem switchNew_destLevel_formula_and_negative_fails
    (rs : Switcher) (ct : Ciphertext) (dir : Bool) :
    rs.destLevel dir ct.level
      = ct.level
        - (if dir then (rs.params1.qCount : ℤ) else (rs.params2.qCount : ℤ))
        + (if dir then (rs.params2.qCount : ℤ) else (rs.params1.qCount : ℤ)) ∧
    (rs.destLevel dir ct.level < 0 →
      SwitchNew rs ct dir = .error .configuration) := by
  constructor
  · cases dir <;>
      simp [Switcher.destLevel, destLevelP, Parameters.maxLevelQ] <;> ring
  · intro h
    cases dir
    · have hg : rs.destLevel false ct.level < 0 ∨
          rs.params1.maxLevelQ < rs.destLevel false ct.level := Or.inl h
      simp only [SwitchNew, Bool.false_eq_true, if_false]
      unfold NewCiphertext
      rw [if_pos hg]
    · by_cases hc : ct.level < 0 ∨ rs.params1.maxLevelQ < ct.level
      · simp only [SwitchNew, if_pos]
        unfold NewCiphertext
        rw [if_pos hc]
      · have hg : rs.destLevel true ct.level < 0 ∨
            rs.params2.maxLevelQ < rs.destLevel true ct.level := Or.inl h
        simp only [SwitchNew, if_pos]
        unfold NewCiphertext atLevel
        rw [if_neg hc, if_neg hc, if_pos hg]

/-- Witness for `switchNew_destLevel_formula_and_negative_fails`:
chain sizes (5, 2), source level 1, `dir = true`, destination level
`1 - 5 + 2 = -2 < 0`. -/
theorem switchNew_destLevel_negative_witness :
    (NewModulusSwitcher ⟨16, 5, [61], 40, true⟩
        ⟨16, 2, [61], 45, true⟩).destLevel true
        (⟨⟨16, 5, [61], 40, true⟩, 1, [.input 0], 40, true, true, (1, 14)⟩ :
          Ciphertext).level
      = (⟨⟨16, 5, [61], 40, true⟩, 1, [.input 0], 40, true, true, (1, 14)⟩ :
          Ciphertext).level
        - (if true then
            ((NewModulusSwitcher ⟨16, 5, [61], 40, true⟩
              ⟨16, 2, [61], 45, true⟩).params1.qCount : ℤ)
           else
            ((NewModulusSwitcher ⟨16, 5, [61], 40, true⟩
              ⟨16, 2, [61], 45, true⟩).params2.qCount : ℤ))
        + (if true then
            ((NewModulusSwitcher ⟨16, 5, [61], 40, true⟩
              ⟨16, 2, [61], 45, true⟩).params2.qCount : ℤ)
           else
            ((NewModulusSwitcher ⟨16, 5, [61], 40, true⟩
              ⟨16, 2, [61], 45, true⟩).params1.qCount : ℤ)) ∧
    SwitchNew (NewModulusSwitcher ⟨16, 5, [61], 40, true⟩
        ⟨16, 2, [61], 45, true⟩)
        ⟨⟨16, 5, [61], 40, true⟩, 1, [.input 0], 40, true, true, (1, 14)⟩ true
      = .error .configuration :=
  ⟨(switchNew_destLevel_formula_and_negative_fails
      (NewModulusSwitcher ⟨16, 5, [61], 40, true⟩ ⟨16, 2, [61], 45, true⟩)
      ⟨⟨16, 5, [61], 40, true⟩, 1, [.input 0], 40, true, true, (1, 14)⟩
      true).1,
   (switchNew_destLevel_formula_and_negative_fails
      (NewModulusSwitcher ⟨16, 5, [61], 40, true⟩ ⟨16, 2, [61], 45, true⟩)
      ⟨⟨16, 5, [61], 40, true⟩, 1, [.input 0], 40, true, true, (1, 14)⟩
      true).2 (by decide)⟩

/-- C4: `SwitchSecretKey` keys on the input level matching a chain's
maximum level: chain1's maximum yields a fresh chain2 key whose Q and P
components are centred small-norm extensions of the input key's residues,
symmetrically for chain2's maximum, and the call fails with the
configuration panic exactly when the level matches neither maximum. -/
theorem switchSecretKey_spec (rs : Switcher) (sk : SecretKey) :
    (sk.levelQ = rs.params1.maxLevelQ →
      SwitchSecretKey rs sk = .ok
        { params := rs.params2
          levelQ := rs.params2.maxLevelQ
          q := .extendSmallNormCentered (.rq true) (.rq false) sk.q
          p := .extendSmallNormCentered (.rq true) (.rp true) sk.q }) ∧
    (sk.levelQ ≠ rs.params1.maxLevelQ → sk.levelQ = rs.params2.maxLevelQ →
      SwitchSecretKey rs sk = .ok
        { params := rs.params1
          levelQ := rs.params1.maxLevelQ
          q := .extendSmallNormCentered (.rq false) (.rq true) sk.q
          p := .extendSmallNormCentered (.rq false) (.rp true) sk.q }) ∧
    (SwitchSecretKey rs sk = .error .configuration ↔
      sk.levelQ ≠ rs.params1.maxLevelQ ∧ sk.levelQ ≠ rs.params2.maxLevelQ) := by
  by_cases h1 : sk.levelQ = rs.params1.maxLevelQ
  · have he : SwitchSecretKey rs sk = .ok
        { params := rs.params2
          levelQ := rs.params2.maxLevelQ
          q := .extendSmallNormCentered (.rq true) (.rq false) sk.q
          p := .extendSmallNormCentered (.rq true) (.rp true) sk.q } := by
      unfold SwitchSecretKey
      rw [if_pos h1]
    refine ⟨fun _ => he, fun hn => absurd h1 hn, ?_⟩
    rw [he]
    constructor
    · intro hx; exact Except.noConfusion hx
    · intro hx; exact absurd h1 hx.1
  · by_cases h2 : sk.levelQ = rs.params2.maxLevelQ
    · have he : SwitchSecretKey rs sk = .ok
          { params := rs.params1
            levelQ := rs.params1.maxLevelQ
            q := .extendSmallNormCentered (.rq false) (.rq true) sk.q
            p := .extendSmallNormCentered (.rq false) (.rp true) sk.q } := by
        unfold SwitchSecretKey
        rw [if_neg h1, if_pos h2]
      refine ⟨fun hc => absurd hc h1, fun _ _ => he, ?_⟩
      rw [he]
      constructor
      · intro hx; exact Except.noConfusion hx
      · intro hx; exact absurd h2 hx.2
    · have he : SwitchSecretKey rs sk = .error .configuration := by
        unfold SwitchSecretKey
        rw [if_neg h1, if_neg h2]
      refine ⟨fun hc => absurd hc h1, fun _ hc => absurd hc h2, ?_⟩
      rw [he]
      simp [h1, h2]

/-- Witness for `switchSecretKey_spec`: a key at chain1's maximum level
(chain sizes (3, 2)) is switched to a fresh chain2 key. -/
theorem switchSecretKey_spec_witness :
    SwitchSecretKey
        (NewModulusSwitcher ⟨16, 3, [61], 40, true⟩ ⟨16, 2, [61], 45, true⟩)
        ⟨⟨16, 3, [61], 40, true⟩, 2, .input 5, .input 6⟩
      = .ok
        { params := ⟨16, 2, [61], 45, true⟩
          levelQ := (1 : ℤ)
          q := .extendSmallNormCentered (.rq true) (.rq false) (.input 5)
          p := .extendSmallNormCentered (.rq true) (.rp true) (.input 5) } :=
  (switchSecretKey_spec
      (NewModulusSwitcher ⟨16, 3, [61], 40, true⟩ ⟨16, 2, [61], 45, true⟩)
      ⟨⟨16, 3, [61], 40, true⟩, 2, .input 5, .input 6⟩).1 (by decide)

/-- C5 counterexample: two parameter sets with different ring degree and
different auxiliary moduli; constructing the modulus switcher from them
succeeds and returns a fully formed switcher — no validation happens (the
in-code comment says the RingP check is deliberately omitted). -/
theorem newModulusSwitcher_no_validation_cex :
    (⟨16, 2, [61], 40, true⟩ : Parameters).logN
        ≠ (⟨15, 3, [50, 50], 45, true⟩ : Parameters).logN ∧
    (⟨16, 2, [61], 40, true⟩ : Parameters).pBits
        ≠ (⟨15, 3, [50, 50], 45, true⟩ : Parameters).pBits ∧
    NewModulusSwitcher ⟨16, 2, [61], 40, true⟩ ⟨15, 3, [50, 50], 45, true⟩
      = { params1 := ⟨16, 2, [61], 40, true⟩
          params2 := ⟨15, 3, [50, 50], 45, true⟩
          hasBasisExtender := true } := by
  refine ⟨by decide, by decide, rfl⟩

/-- C5 amended: `NewModulusSwitcher` performs no validation at all — for
every pair of parameter sets (matching or not) it returns the switcher
built from them, guarding only the basis-extender creation on both
ciphertext rings being present. -/
theorem newModulusSwitcher_total (p1 p2 : Parameters) :
    NewModulusSwitcher p1 p2
      = { params1 := p1
          params2 := p2
          hasBasisExtender := p1.hasRingQ && p2.hasRingQ } := rfl

/-- C6: on success, every value component of the output is exactly the
three-step pipeline applied to the corresponding input component —
inverse transform over the source ring at the source level, basis
extension between the chains at (source level, destination level), then
forward transform over the destination ring at the destination level. -/
theorem switchNew_three_step_per_component (rs : Switcher) (ct : Ciphertext)
    (dir : Bool) (out : Ciphertext) (h : SwitchNew rs ct dir = .ok out) :
    (dir = true → out.value = ct.value.map (fun x =>
      Poly.ntt (.rq false) (rs.destLevel true ct.level)
        (Poly.modUpQtoP ct.level (rs.destLevel true ct.level)
          (Poly.inttLazy (.rq true) ct.level x)))) ∧
    (dir = false → out.value = ct.value.map (fun x =>
      Poly.nttLazy (.rq true) (rs.destLevel false ct.level)
        (Poly.modUpPtoQ ct.level (rs.destLevel false ct.level)
          (Poly.inttLazy (.rq false) ct.level x)))) := by
  have hv := (switchNew_ok_spec rs ct dir out h).2.2.2.2.2.2
  constructor
  · intro hd; subst hd; rw [hv]; simp [componentPipeline]
  · intro hd; subst hd; rw [hv]; simp [componentPipeline]

/-- Witness for `switchNew_three_step_per_component`: equal chains of
size 2, one component, level 1, `dir = true`. -/
theorem switchNew_three_step_witness :
    ((true = true) →
      (⟨⟨16, 2, [61], 40, true⟩, 1,
          [.ntt (.rq false) 1 (.modUpQtoP 1 1 (.inttLazy (.rq true) 1 (.input 3)))],
          45, false, true, (2, 3)⟩ : Ciphertext).value
        = [Poly.input 3].map (fun x =>
            Poly.ntt (.rq false)
              ((NewModulusSwitcher ⟨16, 2, [61], 40, true⟩
                ⟨16, 2, [61], 45, true⟩).destLevel true 1)
              (Poly.modUpQtoP 1
                ((NewModulusSwitcher ⟨16, 2, [61], 40, true⟩
                  ⟨16, 2, [61], 45, true⟩).destLevel true 1)
                (Poly.inttLazy (.rq true) 1 x)))) ∧
    ((true = false) →
      (⟨⟨16, 2, [61], 40, true⟩, 1,
          [.ntt (.rq false) 1 (.modUpQtoP 1 1 (.inttLazy (.rq true) 1 (.input 3)))],
          45, false, true, (2, 3)⟩ : Ciphertext).value
        = [Poly.input 3].map (fun x =>
            Poly.nttLazy (.rq true)
              ((NewModulusSwitcher ⟨16, 2, [61], 40, true⟩
                ⟨16, 2, [61], 45, true⟩).destLevel false 1)
              (Poly.modUpPtoQ 1
                ((NewModulusSwitcher ⟨16, 2, [61], 40, true⟩
                  ⟨16, 2, [61], 45, true⟩).destLevel false 1)
                (Poly.inttLazy (.rq false) 1 x)))) :=
  switchNew_three_step_per_component
    (NewModulusSwitcher ⟨16, 2, [61], 40, true⟩ ⟨16, 2, [61], 45, true⟩)
    ⟨⟨16, 2, [61], 40, true⟩, 1, [.input 3], 40, false, true, (2, 3)⟩ true
    ⟨⟨16, 2, [61], 40, true⟩, 1,
      [.ntt (.rq false) 1 (.modUpQtoP 1 1 (.inttLazy (.rq true) 1 (.input 3)))],
      45, false, true, (2, 3)⟩ (by decide)

/-- C7: on success the output ciphertext carries the same domain flag and
the same batching metadata (batched flag and log-dimensions) as the
input. -/
theorem switchNew_metadata_preserved (rs : Switcher) (ct : Ciphertext)
    (dir : Bool) (out : Ciphertext) (h : SwitchNew rs ct dir = .ok out) :
    out.isNTT = ct.isNTT ∧ out.isBatched = ct.isBatched ∧
      out.logDimensions = ct.logDimensions := by
  obtain ⟨-, -, -, h4, h5, h6, -⟩ := switchNew_ok_spec rs ct dir out h
  exact ⟨h4, h5, h6⟩

/-- Witness for `switchNew_metadata_preserved`: a non-NTT, non-batched
input with log-dimensions (2, 3) keeps that metadata across the switch. -/
theorem switchNew_metadata_preserved_witness :
    (⟨⟨16, 2, [61], 40, true⟩, 1,
        [.nttLazy (.rq true) 1 (.modUpPtoQ 1 1 (.inttLazy (.rq false) 1 (.input 3)))],
        40, false, false, (2, 3)⟩ : Ciphertext).isNTT
      = (⟨⟨16, 2, [61], 45, true⟩, 1, [.input 3], 45, false, false, (2, 3)⟩ :
          Ciphertext).isNTT ∧
    (⟨⟨16, 2, [61], 40, true⟩, 1,
        [.nttLazy (.rq true) 1 (.modUpPtoQ 1 1 (.inttLazy (.rq false) 1 (.input 3)))],
        40, false, false, (2, 3)⟩ : Ciphertext).isBatched
      = (⟨⟨16, 2, [61], 45, true⟩, 1, [.input 3], 45, false, false, (2, 3)⟩ :
          Ciphertext).isBatched ∧
    (⟨⟨16, 2, [61], 40, true⟩, 1,
        [.nttLazy (.rq true) 1 (.modUpPtoQ 1 1 (.inttLazy (.rq false) 1 (.input 3)))],
        40, false, false, (2, 3)⟩ : Ciphertext).logDimensions
      = (⟨⟨16, 2, [61], 45, true⟩, 1, [.input 3], 45, false, false, (2, 3)⟩ :
          Ciphertext).logDimensions :=
  switchNew_metadata_preserved
    (NewModulusSwitcher ⟨16, 2, [61], 40, true⟩ ⟨16, 2, [61], 45, true⟩)
    ⟨⟨16, 2, [61], 45, true⟩, 1, [.input 3], 45, false, false, (2, 3)⟩ false
    ⟨⟨16, 2, [61], 40, true⟩, 1,
      [.nttLazy (.rq true) 1 (.modUpPtoQ 1 1 (.inttLazy (.rq false) 1 (.input 3)))],
      40, false, false, (2, 3)⟩ (by decide)

/-- C10: the per-direction scratch buffers are two-element arrays, so a
ciphertext with three or more value components makes the call fail with
the Go index panic (for any input whose levels pass the earlier ring
guards) instead of producing a switched ciphertext. -/
theorem switchNew_three_components_fails (rs : Switcher) (ct : Ciphertext)
    (dir : Bool) (hlen : 3 ≤ ct.value.length) (h0 : 0 ≤ ct.level)
    (h1 : ct.level ≤ (if dir then rs.params1.maxLevelQ
                      else rs.params2.maxLevelQ))
    (h2 : 0 ≤ rs.destLevel dir ct.level) :
    SwitchNew rs ct dir = .error .indexOutOfRange := by
  have hloop := switchLoop_overflow dir ct.level (rs.destLevel dir ct.level)
  cases dir
  · simp only [Bool.false_eq_true, if_false] at h1
    have hl1 : ¬(ct.level < 0 ∨ rs.params2.maxLevelQ < ct.level) := by
      push_neg
      exact ⟨h0, h1⟩
    have hl2 : ¬(rs.destLevel false ct.level < 0 ∨
        rs.params1.maxLevelQ < rs.destLevel false ct.level) := by
      push_neg
      refine ⟨h2, ?_⟩
      simp only [Switcher.destLevel, destLevelP, Bool.false_eq_true, if_false,
        Parameters.maxLevelQ] at h1 ⊢
      omega
    have hrun := hloop (rs.destLevel false ct.level) ct.value 0
      (by omega) (by omega)
    simp [SwitchNew, NewCiphertext, atLevel, hl1, hl2, hrun]
  · simp only [if_pos] at h1
    have hl1 : ¬(ct.level < 0 ∨ rs.params1.maxLevelQ < ct.level) := by
      push_neg
      exact ⟨h0, h1⟩
    have hl2 : ¬(rs.destLevel true ct.level < 0 ∨
        rs.params2.maxLevelQ < rs.destLevel true ct.level) := by
      push_neg
      refine ⟨h2, ?_⟩
      simp only [Switcher.destLevel, destLevelP, if_pos,
        Parameters.maxLevelQ] at h1 ⊢
      omega
    have hrun := hloop ct.level ct.value 0 (by omega) (by omega)
    simp [SwitchNew, NewCiphertext, atLevel, hl1, hl2, hrun]

/-- Witness for `switchNew_three_components_fails`: equal chains of size
2, a three-component ciphertext at level 1, `dir = true`. -/
theorem switchNew_three_components_fails_witness :
    SwitchNew (NewModulusSwitcher ⟨16, 2, [61], 40, true⟩ ⟨16, 2, [61], 45, true⟩)
        ⟨⟨16, 2, [61], 40, true⟩, 1, [.input 0, .input 1, .input 2],
          40, true, true, (1, 14)⟩ true
      = .error .indexOutOfRange :=
  switchNew_three_components_fails
    (NewModulusSwitcher ⟨16, 2, [61], 40, true⟩ ⟨16, 2, [61], 45, true⟩)
    ⟨⟨16, 2, [61], 40, true⟩, 1, [.input 0, .input 1, .input 2],
      40, true, true, (1, 14)⟩ true
    (by decide) (by decide) (by decide) (by decide)

lemma outsourcedBootstrap_cases (ms : Switcher) (ex : BootstrapStages)
    (ct : Ciphertext) :
    ((outsourcedBootstrap ms ex ct).1.isOk = true ∧
      (outsourcedBootstrap ms ex ct).2 = bootstrapStageOrder) ∨
    ((outsourcedBootstrap ms ex ct).1.isOk = false ∧
      (outsourcedBootstrap ms ex ct).2 <+: bootstrapStageOrder) := by
  unfold outsourcedBootstrap
  split
  · exact Or.inr ⟨rfl, ⟨_, rfl⟩⟩
  split
  · exact Or.inr ⟨rfl, ⟨_, rfl⟩⟩
  split
  · exact Or.inr ⟨rfl, ⟨_, rfl⟩⟩
  split
  · exact Or.inr ⟨rfl, ⟨_, rfl⟩⟩
  split
  · exact Or.inr ⟨rfl, ⟨_, rfl⟩⟩
  split
  · exact Or.inr ⟨rfl, ⟨_, rfl⟩⟩
  split
  · exact Or.inr ⟨rfl, ⟨_, rfl⟩⟩
  split
  · exact Or.inr ⟨rfl, ⟨_, rfl⟩⟩
  split
  · exact Or.inr ⟨rfl, ⟨_, rfl⟩⟩
  split
  · exact Or.inr ⟨rfl, List.prefix_refl _⟩
  · exact Or.inl ⟨rfl, rfl⟩

/-- C9: the out-sourced bootstrap invokes the stages in the fixed order
of `bootstrapStageOrder`, aborting at the first failure: the executed
trace is always a prefix of that order and equals it exactly on success.
In that order the chain1-to-chain2 switch occurs exactly once,
immediately after the chain1 homomorphic decode; everything between the
two switches (scale-down, basis-raise, homomorphic encode, the two
modular reductions, multiply-by-i, add) runs under chain2; and the
chain2-to-chain1 switch occurs exactly once, as the final stage. -/
theorem outsourcedBootstrap_stage_order (ms : Switcher) (ex : BootstrapStages)
    (ct : Ciphertext) :
    ((outsourcedBootstrap ms ex ct).2 <+: bootstrapStageOrder) ∧
    ((outsourcedBootstrap ms ex ct).1.isOk = true →
      (outsourcedBootstrap ms ex ct).2 = bootstrapStageOrder) ∧
    (bootstrapStageOrder.count (.switchCt true) = 1 ∧
     bootstrapStageOrder.count (.switchCt false) = 1 ∧
     bootstrapStageOrder.getD 0 (.switchCt true) = .slotsToCoeffs true ∧
     bootstrapStageOrder.getD 1 (.slotsToCoeffs true) = .switchCt true ∧
     bootstrapStageOrder.getLast? = some (.switchCt false) ∧
     ∀ s ∈ (bootstrapStageOrder.drop 2).take 7, s.chain1Of = false) := by
  rcases outsourcedBootstrap_cases ms ex ct with ⟨hok, htr⟩ | ⟨hok, htr⟩
  · exact ⟨htr ▸ List.prefix_refl _, fun _ => htr, by decide⟩
  · exact ⟨htr, fun hc => absurd hc (by simp [hok]), by decide⟩

/-- A trivial instantiation of the external bootstrapping stages, used
only to witness `outsourcedBootstrap_stage_order` on a concrete run. -/
def idStages : BootstrapStages :=
  { slotsToCoeffs1 := fun c => .ok c
    scaleDown2 := fun c => .ok c
    modUp2 := fun c => .ok c
    coeffsToSlots2 := fun c => .ok (c, c)
    evalMod2 := fun c => .ok c
    mulByI2 := fun c => .ok c
    add2 := fun a _ => .ok a }

/-- Witness for `outsourcedBootstrap_stage_order`: with equal chains of
size 2 and a valid one-component ciphertext, the pipeline succeeds and
its trace is exactly the documented stage order. -/
theorem outsourcedBootstrap_stage_order_witness :
    (outsourcedBootstrap
        (NewModulusSwitcher ⟨16, 2, [61], 40, true⟩ ⟨16, 2, [61], 45, true⟩)
        idStages
        ⟨⟨16, 2, [61], 40, true⟩, 1, [.input 0], 40, true, true, (1, 14)⟩).2
      = bootstrapStageOrder :=
  (outsourcedBootstrap_stage_order
      (NewModulusSwitcher ⟨16, 2, [61], 40, true⟩ ⟨16, 2, [61], 45, true⟩)
      idStages
      ⟨⟨16, 2, [61], 40, true⟩, 1, [.input 0], 40, true, true, (1, 14)⟩).2.1
    (by decide)

lemma heapSwitchComponent_frame (dir : Bool) (bA bB : ℕ × ℕ)
    (l1 l2 alloc : ℤ) (i : ℕ) (src dst : ℕ) (h h' : Heap)
    (hok : heapSwitchComponent dir bA bB l1 l2 alloc i src dst h = .ok h') :
    h'.nextFree = h.nextFree ∧
    ∀ l, l ≠ bA.1 → l ≠ bA.2 → l ≠ bB.1 → l ≠ bB.2 → l ≠ dst →
      h'.mem l = h.mem l := by
  by_cases h2 : 2 ≤ i
  · simp [heapSwitchComponent, h2] at hok
  · by_cases h3 : alloc < l2
    · simp [heapSwitchComponent, h2, h3] at hok
    · simp only [heapSwitchComponent, if_neg h2, if_neg h3] at hok
      cases hok
      refine ⟨rfl, ?_⟩
      intro l ha1 ha2 hb1 hb2 hd
      have hla : l ≠ (if i = 0 then bA.1 else bA.2) := by
        split <;> assumption
      have hlb : l ≠ (if i = 0 then bB.1 else bB.2) := by
        split <;> assumption
      simp [Heap.write, hla, hlb, hd]

lemma heapSwitchLoop_frame (dir : Bool) (bA bB : ℕ × ℕ) (l1 l2 alloc : ℤ) :
    ∀ (srcs dsts : List ℕ) (i : ℕ) (h h' : Heap),
      heapSwitchLoop dir bA bB l1 l2 alloc i srcs dsts h = .ok h' →
      h'.nextFree = h.nextFree ∧
      ∀ l, l ≠ bA.1 → l ≠ bA.2 → l ≠ bB.1 → l ≠ bB.2 → l ∉ dsts →
        h'.mem l = h.mem l := by
  intro srcs
  induction srcs with
  | nil =>
    intro dsts i h h' hok
    simp only [heapSwitchLoop] at hok
    cases hok
    exact ⟨rfl, fun l _ _ _ _ _ => rfl⟩
  | cons s srcs ih =>
    intro dsts i h h' hok
    cases dsts with
    | nil => simp [heapSwitchLoop] at hok
    | cons d dsts =>
      unfold heapSwitchLoop at hok
      cases hc : heapSwitchComponent dir bA bB l1 l2 alloc i s d h with
      | error e => rw [hc] at hok; exact absurd hok (by simp)
      | ok h1 =>
        rw [hc] at hok
        obtain ⟨hn1, hm1⟩ :=
          heapSwitchComponent_frame dir bA bB l1 l2 alloc i s d h h1 hc
        obtain ⟨hn2, hm2⟩ := ih dsts (i + 1) h1 h' hok
        refine ⟨hn2.trans hn1, ?_⟩
        intro l ha1 ha2 hb1 hb2 hd
        have hd1 : l ≠ d := fun hl => hd (hl ▸ List.mem_cons_self d dsts)
        have hd2 : l ∉ dsts := fun hl => hd (List.mem_cons_of_mem d hl)
        rw [hm2 l ha1 ha2 hb1 hb2 hd2, hm1 l ha1 ha2 hb1 hb2 hd1]

/-- C8: a successful heap-level switch call writes only the switcher's
four scratch-buffer locations and the freshly allocated output
locations: every pre-existing non-buffer location keeps its contents (in
particular every input component), and every output component location
is fresh, so the output shares no storage with the input. -/
theorem hswitchNew_frame (sw : HSwitcher) (h : Heap) (ctIn : HCiphertext)
    (dir : Bool)
    (hin : ∀ l ∈ ctIn.value, l < h.nextFree ∧ l ∉ sw.bufferLocs)
    (hok : (HSwitchNew sw h ctIn dir).isOk = true) :
    (∀ l, l < h.nextFree → l ∉ sw.bufferLocs →
      (okHeapD (HSwitchNew sw h ctIn dir) h).mem l = h.mem l) ∧
    (∀ l ∈ ctIn.value,
      (okHeapD (HSwitchNew sw h ctIn dir) h).mem l = h.mem l) ∧
    (∀ l ∈ (okCtD (HSwitchNew sw h ctIn dir) ctIn).value,
      h.nextFree ≤ l ∧ l ∉ ctIn.value) := by
  cases hr : HSwitchNew sw h ctIn dir with
  | error e => rw [hr] at hok; exact absurd hok (by exact fun hc => nomatch hc)
  | ok res =>
    have hmain : (∀ l, l < h.nextFree → l ∉ sw.bufferLocs →
        res.2.mem l = h.mem l) ∧
        (∀ l ∈ res.1.value, h.nextFree ≤ l) := by
      have hcond : ∀ l, l < h.nextFree →
          ¬(h.nextFree ≤ l ∧ l < h.nextFree + ctIn.value.length) := by
        omega
      cases dir
      · simp only [HSwitchNew, Bool.false_eq_true, if_false] at hr
        split at hr
        · exact Except.noConfusion hr
        split at hr
        · exact Except.noConfusion hr
        split at hr
        · exact Except.noConfusion hr
        rename_i h2 hloopEq
        cases hr
        obtain ⟨hn2, hm2⟩ :=
          heapSwitchLoop_frame _ _ _ _ _ _ _ _ _ _ _ hloopEq
        constructor
        · intro l hl hbuf
          simp only [HSwitcher.bufferLocs, List.mem_cons, List.not_mem_nil,
            or_false, not_or] at hbuf
          obtain ⟨hb11, hb12, hb21, hb22⟩ := hbuf
          have heq := hm2 l hb21 hb22 hb11 hb12
            (by simp only [Heap.allocN, List.mem_map, List.mem_range]
                rintro ⟨k, -, rfl⟩
                omega)
          rw [heq]
          simp [Heap.allocN, hcond l hl]
        · intro l hl
          simp only [Heap.allocN, List.mem_map, List.mem_range] at hl
          obtain ⟨k, -, rfl⟩ := hl
          omega
      · simp only [HSwitchNew, if_pos] at hr
        split at hr
        · exact Except.noConfusion hr
        split at hr
        · exact Except.noConfusion hr
        split at hr
        · exact Except.noConfusion hr
        rename_i h2 hloopEq
        cases hr
        obtain ⟨hn2, hm2⟩ :=
          heapSwitchLoop_frame _ _ _ _ _ _ _ _ _ _ _ hloopEq
        constructor
        · intro l hl hbuf
          simp only [HSwitcher.bufferLocs, List.mem_cons, List.not_mem_nil,
            or_false, not_or] at hbuf
          obtain ⟨hb11, hb12, hb21, hb22⟩ := hbuf
          have heq := hm2 l hb11 hb12 hb21 hb22
            (by simp only [Heap.allocN, List.mem_map, List.mem_range]
                rintro ⟨k, -, rfl⟩
                omega)
          rw [heq]
          simp [Heap.allocN, hcond l hl]
        · intro l hl
          simp only [Heap.allocN, List.mem_map, List.mem_range] at hl
          obtain ⟨k, -, rfl⟩ := hl
          omega
    refine ⟨?_, ?_, ?_⟩
    · intro l hl hbuf
      simpa [okHeapD] using hmain.1 l hl hbuf
    · intro l hl
      obtain ⟨hlt, hnb⟩ := hin l hl
      simpa [okHeapD] using hmain.1 l hlt hnb
    · intro l hl
      simp only [okCtD] at hl
      have hge := hmain.2 l hl
      refine ⟨hge, fun hc => ?_⟩
      exact absurd hge (by have := (hin l hc).1; omega)

/-- Witness for `hswitchNew_frame`: buffers at locations 0-3, a
two-component input at locations 4 and 5 in a heap with allocation bound
6; after the switch, input location 4 is untouched and the first output
location 6 is fresh and disjoint from the input. -/
theorem hswitchNew_frame_witness :
    (okHeapD (HSwitchNew
          ⟨⟨16, 2, [61], 40, true⟩, ⟨16, 2, [61], 45, true⟩, (0, 1), (2, 3)⟩
          ⟨6, fun _ => .input 99⟩ ⟨1, [4, 5]⟩ true)
        ⟨6, fun _ => .input 99⟩).mem 4
      = (⟨6, fun _ => .input 99⟩ : Heap).mem 4 ∧
    ((⟨6, fun _ => .input 99⟩ : Heap).nextFree ≤ 6 ∧
      (6 : ℕ) ∉ (⟨1, [4, 5]⟩ : HCiphertext).value) :=
  ⟨(hswitchNew_frame
      ⟨⟨16, 2, [61], 40, true⟩, ⟨16, 2, [61], 45, true⟩, (0, 1), (2, 3)⟩
      ⟨6, fun _ => .input 99⟩ ⟨1, [4, 5]⟩ true (by decide) (by decide)).2.1
        4 (by decide),
   (hswitchNew_frame
      ⟨⟨16, 2, [61], 40, true⟩, ⟨16, 2, [61], 45, true⟩, (0, 1), (2, 3)⟩
      ⟨6, fun _ => .input 99⟩ ⟨1, [4, 5]⟩ true (by decide) (by decide)).2.2
        6 (by decide)⟩

end Grafting
